import Mathlib

/-!
# Verification of the paginated artwork data-grid component

A shallow embedding of `src/components/DataTable.tsx`: the component's two
HTTP-driven control flows — the paginated view driver (`fetchArtworks`,
`onPageChange`) and the bounded multi-page selection walk inside
`handleSubmit` — are modelled as pure Lean functions.  HTTP is modelled as a
function from a 1-based page number to a `FetchOutcome`; the `await` in the
source serialises fetches, so the walk is an ordinary recursive function
whose fetch trace (the list of pages requested, in request order) is
returned alongside the result.  The `while` loop of `handleSubmit` is driven
by an explicit fuel parameter; running out of fuel yields `none`, and the
termination theorem shows a sufficient fuel bound under the source's
pagination contract.
-/

namespace DataTableSpec

/-- One artwork record, mirroring the `Artwork` interface of the source
(`id` is a JS number, modelled as `Int`; nullable fields as `Option`). -/
structure Artwork where
  id : Int
  title : String
  place_of_origin : String
  artist_display : String
  inscriptions : Option String
  date_start : Option Int
  date_end : Option Int
deriving DecidableEq, Repr

/-- The `pagination` object of the remote API's response body. -/
structure Pagination where
  current_page : Int
  total_pages : Int
  total : Int
deriving DecidableEq, Repr

/-- A response body: the source checks `data && data.data` and
`data.pagination` for truthiness, so both fields are `Option` (a missing or
null body is folded into `data := none`, which the source treats the same
way). -/
structure ApiResponse where
  data : Option (List Artwork)
  pagination : Option Pagination
deriving DecidableEq, Repr

/-- Outcome of one `axios.get` for a page: `err` is a rejected promise
(network/transport failure), `ok` a resolved response. -/
inductive FetchOutcome where
  | err : FetchOutcome
  | ok : ApiResponse → FetchOutcome
deriving DecidableEq, Repr

/-- The `parseInt(s, 10)` of JS on the submitted input: skip leading
whitespace, read an optional sign, then the longest prefix of decimal
digits; no digits means `NaN`, modelled as `none`. -/
def parseLeadingDigits (cs : List Char) : Option Nat :=
  let ds := cs.takeWhile Char.isDigit
  if ds.isEmpty then none
  else some (ds.foldl (fun acc c => acc * 10 + (c.toNat - 48)) 0)

/-- Entry point of the JS `parseInt(inputValue, 10)` model. -/
def parseIntBase10 (s : String) : Option Int :=
  match s.data.dropWhile Char.isWhitespace with
  | '-' :: rest => (parseLeadingDigits rest).map (fun n => -(n : Int))
  | '+' :: rest => (parseLeadingDigits rest).map (fun n => (n : Int))
  | cs => (parseLeadingDigits cs).map (fun n => (n : Int))

/-- The `while (selectedItems.length < numberOfItems)` loop of
`handleSubmit` (source lines 76–117).  `fetch` stands for the awaited
`axios.get` of page `page`; `selectedItems` is the accumulator; the returned
`List Nat` is the trace of pages fetched, in request order (each fetch is
awaited before the next is issued, so list order is temporal order).
`none` means the fuel ran out before the loop exited. -/
def selectWalk (fetch : Nat → FetchOutcome) (target : Nat) :
    Nat → List Artwork → Nat → Option (List Artwork × List Nat)
  | 0, _, _ => none
  | fuel + 1, selectedItems, page =>
    if selectedItems.length < target then
      match fetch page with
      | .err => some (selectedItems, [page])
      | .ok resp =>
        match resp.data with
        | none => some (selectedItems, [page])
        | some artworksFromPage =>
          let remaining := target - selectedItems.length
          let uniqueItems := artworksFromPage.filter fun artwork =>
            !(selectedItems.any fun selected => selected.id == artwork.id)
          let newSelected := selectedItems ++ uniqueItems.take remaining
          if artworksFromPage.length < remaining then
            match resp.pagination with
            | some pg =>
              if pg.current_page < pg.total_pages then
                match selectWalk fetch target fuel newSelected (page + 1) with
                | none => none
                | some (sel, tr) => some (sel, page :: tr)
              else some (newSelected, [page])
            | none => some (newSelected, [page])
          else some (newSelected, [page])
    else some (selectedItems, [])

/-- Observable outcome of one `handleSubmit` run: whether validation failed
(the `console.error` early return), the final `selectedArtworks` state, and
the trace of pages fetched during the walk. -/
structure SubmitOutcome where
  validationFailed : Bool
  selectedArtworks : List Artwork
  pagesFetched : List Nat
deriving DecidableEq, Repr

/-- `handleSubmit` (source lines 64–122): parse the input, reject
non-numeric or non-positive targets without fetching, otherwise run the walk
from an empty accumulator at page 1 and replace `selectedArtworks` with its
result.  `prevSelected` is the component's `selectedArtworks` state before
the run; `none` means the walk's fuel ran out. -/
def handleSubmit (fetch : Nat → FetchOutcome) (fuel : Nat)
    (inputValue : String) (prevSelected : List Artwork) : Option SubmitOutcome :=
  match parseIntBase10 inputValue with
  | none => some ⟨true, prevSelected, []⟩
  | some numberOfItems =>
    if numberOfItems ≤ 0 then some ⟨true, prevSelected, []⟩
    else
      match selectWalk fetch numberOfItems.toNat fuel [] 1 with
      | none => none
      | some (sel, tr) => some ⟨false, sel, tr⟩

/-- The component state touched by the paginated view driver. -/
structure ComponentState where
  artworks : List Artwork
  totalRecords : Int
  currentPage : Int
  loading : Bool
deriving DecidableEq, Repr

/-- Result of one `fetchArtworks` run: the new component state, the page
number passed to the fetcher, and whether `console.error` fired. -/
structure FetchViewOutcome where
  state : ComponentState
  requestedPage : Nat
  errorLogged : Bool
deriving DecidableEq, Repr

/-- `fetchArtworks` (source lines 35–53).  `loading` is set `true` on entry
and `false` in the `finally`, so the final state always has
`loading = false`.  When the body has `data` but no `pagination`, the source
has already run `setArtworks(data.data)` when `data.pagination.total` throws
a TypeError that the surrounding `catch` logs — hence that branch updates
`artworks` only and logs an error. -/
def fetchArtworks (fetch : Nat → FetchOutcome) (page : Nat)
    (s : ComponentState) : FetchViewOutcome :=
  match fetch page with
  | .err => ⟨{ s with loading := false }, page, true⟩
  | .ok resp =>
    match resp.data with
    | none => ⟨{ s with loading := false }, page, false⟩
    | some items =>
      match resp.pagination with
      | none => ⟨{ s with artworks := items, loading := false }, page, true⟩
      | some pg =>
        ⟨{ s with
            artworks := items
            totalRecords := pg.total
            currentPage := pg.current_page
            loading := false }, page, false⟩

/-- `onPageChange` (source lines 59–62): a zero-based page-change event
(`event.page`, possibly absent) becomes a one-based fetch via
`(event.page ?? 0) + 1`. -/
def onPageChange (fetch : Nat → FetchOutcome) (eventPage : Option Nat)
    (s : ComponentState) : FetchViewOutcome :=
  fetchArtworks fetch (eventPage.getD 0 + 1) s

/-- Concatenation of pages `1, 2, …, T` of a page source, in page order:
the "first-seen order" reference stream for the selection walk. -/
def pagesUpTo (pages : Nat → List Artwork) : Nat → List Artwork
  | 0 => []
  | T + 1 => pagesUpTo pages T ++ pages (T + 1)

/-- The ascending gap-free page sequence `s, s+1, …, s+n-1`. -/
def pageSeq (s : Nat) : Nat → List Nat
  | 0 => []
  | n + 1 => s :: pageSeq (s + 1) n

/-! ## Concrete fixtures for counterexamples and witnesses -/

/-- A minimal artwork record with a given id. -/
def mkArt (i : Int) : Artwork := ⟨i, "t", "p", "a", none, none, none⟩

/-- A second artwork record with the same shape but different text fields,
used to exhibit two distinct records sharing an id. -/
def mkArtB (i : Int) : Artwork := ⟨i, "u", "q", "b", none, none, none⟩

/-- Page source for the C1 counterexample: page 2 repeats page 1's record,
page 3 holds a fresh one. -/
def pagesC1 : Nat → List Artwork
  | 1 => [mkArt 1]
  | 2 => [mkArt 1]
  | 3 => [mkArt 2]
  | _ => []

/-- Fetcher for the C1 counterexample: serves `pagesC1` with honest
pagination over 3 total pages. -/
def fetchC1 (p : Nat) : FetchOutcome :=
  .ok ⟨some (pagesC1 p), some ⟨(p : Int), 3, 3⟩⟩

/-- Fetcher for the C3 counterexample: a single page carrying two distinct
records with the same id. -/
def fetchDup (_ : Nat) : FetchOutcome :=
  .ok ⟨some [mkArt 1, mkArtB 1], some ⟨1, 1, 2⟩⟩

/-- Fetcher whose page 1 repeats an id the accumulator already holds while
pagination says four more pages exist; used in the C2 witness. -/
def fetchC2w (_ : Nat) : FetchOutcome :=
  .ok ⟨some [mkArt 1], some ⟨1, 5, 60⟩⟩

/-- A fetcher that always fails (rejected promise). -/
def fetchErr (_ : Nat) : FetchOutcome := .err

/-- Two-page source with globally distinct ids, used in the C1 witness. -/
def pagesW : Nat → List Artwork
  | 1 => [mkArt 1, mkArt 2]
  | 2 => [mkArt 3, mkArt 4]
  | _ => []

/-- Fetcher serving `pagesW` with honest pagination over 2 total pages. -/
def fetchW (p : Nat) : FetchOutcome :=
  .ok ⟨some (pagesW p), some ⟨(p : Int), 2, 4⟩⟩

/-- Fetcher whose every page reports itself as current among `T = 1` total
pages; used in the C6 witness. -/
def fetchT1 (p : Nat) : FetchOutcome :=
  .ok ⟨some [], some ⟨(p : Int), 1, 0⟩⟩

/-! ## Helper lemmas -/

/-- `fetchArtworks` always asks the fetcher for exactly the page it was
given. -/
theorem fetchArtworks_requestedPage (fetch : Nat → FetchOutcome) (page : Nat)
    (s : ComponentState) : (fetchArtworks fetch page s).requestedPage = page := by
  unfold fetchArtworks
  rcases fetch page with _ | ⟨d, pg⟩
  · rfl
  · rcases d with _ | items
    · rfl
    · rcases pg with _ | pg <;> rfl

/-- The fetch trace of any completed walk is the ascending gap-free page
sequence starting at the walk's starting page. -/
theorem selectWalk_trace (fetch : Nat → FetchOutcome) (target : Nat) :
    ∀ fuel acc page sel tr,
      selectWalk fetch target fuel acc page = some (sel, tr) →
      tr = pageSeq page tr.length := by
  intro fuel
  induction fuel with
  | zero =>
    intro acc page sel tr h
    exact absurd h (by simp [selectWalk])
  | succ fuel ih =>
    intro acc page sel tr h
    by_cases hlt : acc.length < target
    · cases hf : fetch page with
      | err =>
        simp only [selectWalk, if_pos hlt, hf, Option.some.injEq,
          Prod.mk.injEq] at h
        obtain ⟨rfl, rfl⟩ := h
        rfl
      | ok resp =>
        rcases hd : resp.data with _ | items
        · simp only [selectWalk, if_pos hlt, hf, hd, Option.some.injEq,
            Prod.mk.injEq] at h
          obtain ⟨rfl, rfl⟩ := h
          rfl
        · by_cases hlen : items.length < target - acc.length
          · rcases hpg : resp.pagination with _ | pg
            · simp only [selectWalk, if_pos hlt, hf, hd, if_pos hlen, hpg,
                Option.some.injEq, Prod.mk.injEq] at h
              obtain ⟨rfl, rfl⟩ := h
              rfl
            · by_cases hcp : pg.current_page < pg.total_pages
              · simp only [selectWalk, if_pos hlt, hf, hd, if_pos hlen, hpg,
                  if_pos hcp] at h
                rcases hrec : selectWalk fetch target fuel
                    (acc ++ (items.filter fun artwork =>
                      !(acc.any fun selected =>
                        selected.id == artwork.id)).take (target - acc.length))
                    (page + 1) with _ | ⟨sel', tr'⟩
                · rw [hrec] at h
                  exact absurd h (by simp)
                · rw [hrec] at h
                  simp only [Option.some.injEq, Prod.mk.injEq] at h
                  obtain ⟨rfl, rfl⟩ := h
                  have htr' := ih _ _ _ _ hrec
                  show page :: tr' = pageSeq page (tr'.length + 1)
                  show page :: tr' = page :: pageSeq (page + 1) tr'.length
                  rw [← htr']
              · simp only [selectWalk, if_pos hlt, hf, hd, if_pos hlen, hpg,
                  if_neg hcp, Option.some.injEq, Prod.mk.injEq] at h
                obtain ⟨rfl, rfl⟩ := h
                rfl
          · simp only [selectWalk, if_pos hlt, hf, hd, if_neg hlen,
              Option.some.injEq, Prod.mk.injEq] at h
            obtain ⟨rfl, rfl⟩ := h
            rfl
    · simp only [selectWalk, if_neg hlt, Option.some.injEq,
        Prod.mk.injEq] at h
      obtain ⟨rfl, rfl⟩ := h
      rfl

/-- One accumulation step preserves id-uniqueness: appending to `acc` a
prefix of the page's items filtered against `acc`'s ids keeps the mapped ids
`Nodup`, provided the page's own ids are `Nodup`. -/
theorem selectWalk_nodup_step (acc items : List Artwork) (r : Nat)
    (hacc : (acc.map Artwork.id).Nodup)
    (hitems : (items.map Artwork.id).Nodup) :
    ((acc ++ (items.filter fun artwork =>
      !(acc.any fun selected => selected.id == artwork.id)).take r).map
        Artwork.id).Nodup := by
  rw [List.map_append, List.nodup_append]
  refine ⟨hacc, ?_, ?_⟩
  · exact (((List.take_sublist r _).trans (List.filter_sublist items)).map
      Artwork.id).nodup hitems
  · intro x hx hx'
    obtain ⟨a, ha, rfl⟩ := List.mem_map.1 hx'
    have hp := List.of_mem_filter (List.mem_of_mem_take ha)
    rw [Bool.not_eq_true', List.any_eq_false] at hp
    obtain ⟨s, hs, hsid⟩ := List.mem_map.1 hx
    exact hp s hs (by simp [hsid])

/-- Any completed walk started from an id-unique accumulator ends with an
id-unique accumulator, provided every fetched page is id-unique within
itself. -/
theorem selectWalk_nodup (fetch : Nat → FetchOutcome) (target : Nat)
    (hpages : ∀ p resp items, fetch p = .ok resp → resp.data = some items →
      (items.map Artwork.id).Nodup) :
    ∀ fuel acc page sel tr, (acc.map Artwork.id).Nodup →
      selectWalk fetch target fuel acc page = some (sel, tr) →
      (sel.map Artwork.id).Nodup := by
  intro fuel
  induction fuel with
  | zero =>
    intro acc page sel tr _ h
    exact absurd h (by simp [selectWalk])
  | succ fuel ih =>
    intro acc page sel tr hacc h
    by_cases hlt : acc.length < target
    · cases hf : fetch page with
      | err =>
        simp only [selectWalk, if_pos hlt, hf, Option.some.injEq,
          Prod.mk.injEq] at h
        obtain ⟨rfl, rfl⟩ := h
        exact hacc
      | ok resp =>
        rcases hd : resp.data with _ | items
        · simp only [selectWalk, if_pos hlt, hf, hd, Option.some.injEq,
            Prod.mk.injEq] at h
          obtain ⟨rfl, rfl⟩ := h
          exact hacc
        · have hitems := hpages page resp items hf hd
          by_cases hlen : items.length < target - acc.length
          · rcases hpg : resp.pagination with _ | pg
            · simp only [selectWalk, if_pos hlt, hf, hd, if_pos hlen, hpg,
                Option.some.injEq, Prod.mk.injEq] at h
              obtain ⟨rfl, rfl⟩ := h
              exact selectWalk_nodup_step acc items _ hacc hitems
            · by_cases hcp : pg.current_page < pg.total_pages
              · simp only [selectWalk, if_pos hlt, hf, hd, if_pos hlen, hpg,
                  if_pos hcp] at h
                rcases hrec : selectWalk fetch target fuel
                    (acc ++ (items.filter fun artwork =>
                      !(acc.any fun selected =>
                        selected.id == artwork.id)).take (target - acc.length))
                    (page + 1) with _ | ⟨sel', tr'⟩
                · rw [hrec] at h
                  exact absurd h (by simp)
                · rw [hrec] at h
                  simp only [Option.some.injEq, Prod.mk.injEq] at h
                  obtain ⟨rfl, rfl⟩ := h
                  exact ih _ _ _ _
                    (selectWalk_nodup_step acc items _ hacc hitems) hrec
              · simp only [selectWalk, if_pos hlt, hf, hd, if_pos hlen, hpg,
                  if_neg hcp, Option.some.injEq, Prod.mk.injEq] at h
                obtain ⟨rfl, rfl⟩ := h
                exact selectWalk_nodup_step acc items _ hacc hitems
          · simp only [selectWalk, if_pos hlt, hf, hd, if_neg hlen,
              Option.some.injEq, Prod.mk.injEq] at h
            obtain ⟨rfl, rfl⟩ := h
            exact selectWalk_nodup_step acc items _ hacc hitems
    · simp only [selectWalk, if_neg hlt, Option.some.injEq,
        Prod.mk.injEq] at h
      obtain ⟨rfl, rfl⟩ := h
      exact hacc

/-- Fuel bound: if every successful response's pagination reports the
requested page as `current_page` and a `total_pages` bounded by `T`, the
walk from page `page` finishes within `T + 2 - page` iterations: every
iteration either stops or moves to the next page, and the advance guard
`current_page < total_pages` caps pages at `T`. -/
theorem selectWalk_terminates (fetch : Nat → FetchOutcome) (target T : Nat)
    (hpag : ∀ p resp pg, fetch p = .ok resp → resp.pagination = some pg →
      pg.current_page = (p : Int) ∧ pg.total_pages ≤ (T : Int)) :
    ∀ fuel page acc, page ≤ T + 1 → T + 2 ≤ page + fuel →
      (selectWalk fetch target fuel acc page).isSome = true := by
  intro fuel
  induction fuel with
  | zero =>
    intro page acc h1 h2
    omega
  | succ fuel ih =>
    intro page acc h1 h2
    by_cases hlt : acc.length < target
    · cases hf : fetch page with
      | err => simp [selectWalk, if_pos hlt, hf]
      | ok resp =>
        rcases hd : resp.data with _ | items
        · simp [selectWalk, if_pos hlt, hf, hd]
        · by_cases hlen : items.length < target - acc.length
          · rcases hpg : resp.pagination with _ | pg
            · simp [selectWalk, if_pos hlt, hf, hd, if_pos hlen, hpg]
            · by_cases hcp : pg.current_page < pg.total_pages
              · obtain ⟨hc, ht⟩ := hpag page resp pg hf hpg
                have hpage : page < T := by
                  rw [hc] at hcp
                  omega
                have hrec := ih (page + 1)
                  (acc ++ (items.filter fun artwork =>
                    !(acc.any fun selected =>
                      selected.id == artwork.id)).take (target - acc.length))
                  (by omega) (by omega)
                obtain ⟨r, hr⟩ := Option.isSome_iff_exists.1 hrec
                rcases r with ⟨sel, tr⟩
                simp [selectWalk, if_pos hlt, hf, hd, if_pos hlen, hpg,
                  if_pos hcp, hr]
              · simp [selectWalk, if_pos hlt, hf, hd, if_pos hlen, hpg,
                  if_neg hcp]
          · simp [selectWalk, if_pos hlt, hf, hd, if_neg hlen]
    · simp [selectWalk, if_neg hlt]

/-- Concatenating pages `1…p` yields a prefix of concatenating pages `1…T`
whenever `p ≤ T`. -/
theorem pagesUpTo_split (pages : Nat → List Artwork) :
    ∀ T p, p ≤ T →
      ∃ rest, pagesUpTo pages T = pagesUpTo pages p ++ rest := by
  intro T
  induction T with
  | zero =>
    intro p hp
    obtain rfl : p = 0 := Nat.le_zero.1 hp
    exact ⟨[], by simp⟩
  | succ T ih =>
    intro p hp
    rcases Nat.lt_or_ge p (T + 1) with h | h
    · obtain ⟨rest, hr⟩ := ih p (by omega)
      refine ⟨rest ++ pages (T + 1), ?_⟩
      show pagesUpTo pages T ++ pages (T + 1) = _
      rw [hr, List.append_assoc]
    · obtain rfl : p = T + 1 := by omega
      exact ⟨[], by simp⟩

/-- Completeness of the walk under an honest sequential source with
globally distinct ids: starting at page `q + 1` with the concatenation of
pages `1…q` already accumulated and still short of `target`, the walk ends
holding exactly the first `target` records of the full page stream. -/
theorem selectWalk_complete (fetch : Nat → FetchOutcome)
    (pages : Nat → List Artwork) (T : Nat) (tot : Int) (target : Nat)
    (hfetch : ∀ p, 1 ≤ p → p ≤ T →
      fetch p = .ok ⟨some (pages p), some ⟨(p : Int), (T : Int), tot⟩⟩)
    (hnodup : ((pagesUpTo pages T).map Artwork.id).Nodup)
    (hcount : target ≤ (pagesUpTo pages T).length) :
    ∀ fuel q, q + 1 ≤ T → T - q ≤ fuel →
      (pagesUpTo pages q).length < target →
      ∃ tr, selectWalk fetch target fuel (pagesUpTo pages q) (q + 1) =
        some ((pagesUpTo pages T).take target, tr) := by
  intro fuel
  induction fuel with
  | zero =>
    intro q hq hfuel hacc
    omega
  | succ fuel ih =>
    intro q hq hfuel hacc
    have hf := hfetch (q + 1) (by omega) hq
    obtain ⟨rest, hsplit⟩ := pagesUpTo_split pages T (q + 1) hq
    have hsub : List.Sublist ((pagesUpTo pages (q + 1)).map Artwork.id)
        ((pagesUpTo pages T).map Artwork.id) := by
      rw [hsplit, List.map_append]
      exact List.sublist_append_left _ _
    have hnd2 : ((pagesUpTo pages q ++ pages (q + 1)).map Artwork.id).Nodup :=
      hsub.nodup hnodup
    rw [List.map_append, List.nodup_append] at hnd2
    obtain ⟨hndacc, hnditems, hdisj⟩ := hnd2
    have hfilter : (pages (q + 1)).filter (fun artwork =>
        !((pagesUpTo pages q).any fun selected =>
          selected.id == artwork.id)) = pages (q + 1) := by
      rw [List.filter_eq_self]
      intro a ha
      rw [Bool.not_eq_true', List.any_eq_false]
      intro s hs
      rw [beq_iff_eq]
      intro hsa
      exact hdisj (List.mem_map_of_mem Artwork.id hs)
        (hsa ▸ List.mem_map_of_mem Artwork.id ha)
    by_cases hlen : (pages (q + 1)).length < target - (pagesUpTo pages q).length
    · have htake : (pages (q + 1)).take
          (target - (pagesUpTo pages q).length) = pages (q + 1) :=
        List.take_of_length_le (by omega)
      have hnewlen : (pagesUpTo pages (q + 1)).length < target := by
        show (pagesUpTo pages q ++ pages (q + 1)).length < target
        rw [List.length_append]
        omega
      have hqT : q + 1 < T := by
        rcases Nat.lt_or_ge (q + 1) T with h | h
        · exact h
        · exfalso
          obtain rfl : q + 1 = T := by omega
          omega
      have hcp : (((q + 1 : Nat)) : Int) < (T : Int) := by
        exact_mod_cast hqT
      obtain ⟨tr, htr⟩ := ih (q + 1) (by omega) (by omega) hnewlen
      have htr' : selectWalk fetch target fuel
          (pagesUpTo pages q ++ pages (q + 1)) (q + 1 + 1) =
          some ((pagesUpTo pages T).take target, tr) := htr
      refine ⟨(q + 1) :: tr, ?_⟩
      simp only [selectWalk, if_pos hacc, hf, hfilter, htake, if_pos hlen,
        if_pos hcp, htr']
    · refine ⟨[q + 1], ?_⟩
      simp only [selectWalk, if_pos hacc, hf, hfilter, if_neg hlen]
      have heq : (pagesUpTo pages T).take target =
          pagesUpTo pages q ++ (pages (q + 1)).take
            (target - (pagesUpTo pages q).length) := by
        have h1 : pagesUpTo pages T =
            pagesUpTo pages q ++ (pages (q + 1) ++ rest) := by
          rw [hsplit]
          rw [show pagesUpTo pages (q + 1) =
            pagesUpTo pages q ++ pages (q + 1) from rfl, List.append_assoc]
        set r := target - (pagesUpTo pages q).length with hrdef
        have hrem : r ≤ (pages (q + 1)).length := by omega
        rw [h1, show target = (pagesUpTo pages q).length + r from by omega,
          List.take_append, List.take_append_of_le_length hrem]
      rw [heq]

/-! ## Claim theorems -/

/-- Claim C2: when a fetched page's raw (pre-filter) item count is at least
the remaining need, the walk appends the deduplicated prefix and stops with
no further fetch (trace is just this page), even if deduplication left the
accumulator below target and pagination reports more pages. -/
theorem claim_C2 (fetch : Nat → FetchOutcome) (target fuel : Nat)
    (acc : List Artwork) (page : Nat) (resp : ApiResponse) (items : List Artwork)
    (hlt : acc.length < target)
    (hf : fetch page = .ok resp)
    (hd : resp.data = some items)
    (hraw : target - acc.length ≤ items.length) :
    selectWalk fetch target (fuel + 1) acc page =
      some (acc ++ (items.filter fun artwork =>
          !(acc.any fun selected => selected.id == artwork.id)).take
            (target - acc.length),
        [page]) := by
  simp only [selectWalk, if_pos hlt, hf, hd]
  rw [if_neg (Nat.not_lt.mpr hraw)]

/-- Claim C2 witness: accumulator `[mkArtB 1]`, target 2; page 1 carries one
raw item (enough for the remaining 1) whose id duplicates the accumulator,
and pagination says 4 more pages exist — the walk still stops at page 1 with
the accumulator one short of target. -/
theorem claim_C2_witness :
    selectWalk fetchC2w 2 1 [mkArtB 1] 1 = some ([mkArtB 1], [1]) := by
  rw [claim_C2 fetchC2w 2 0 [mkArtB 1] 1 ⟨some [mkArt 1], some ⟨1, 5, 60⟩⟩
    [mkArt 1] (by decide) rfl rfl (by decide)]
  decide

/-- Claim C4: if the fetch of the current page fails, or resolves to a body
without the `data` field, the walk returns the records accumulated so far
(the embedding is a total function: no exception propagates). -/
theorem claim_C4 (fetch : Nat → FetchOutcome) (target fuel : Nat)
    (acc : List Artwork) (page : Nat)
    (hlt : acc.length < target)
    (hfail : fetch page = .err ∨
      ∃ resp, fetch page = .ok resp ∧ resp.data = none) :
    selectWalk fetch target (fuel + 1) acc page = some (acc, [page]) := by
  rcases hfail with hf | ⟨resp, hf, hd⟩
  · simp only [selectWalk, if_pos hlt, hf]
  · simp only [selectWalk, if_pos hlt, hf, hd]

/-- Claim C4 witness: with an always-failing fetcher the walk for target 1
returns the empty partial accumulator after the page-1 attempt. -/
theorem claim_C4_witness :
    selectWalk fetchErr 1 1 [] 1 = some ([], [1]) :=
  claim_C4 fetchErr 1 0 [] 1 (by decide) (Or.inl rfl)

/-- Claim C5: if the submitted input is non-numeric (`parseInt` yields NaN)
or parses to a non-positive value, `handleSubmit` reports a validation
failure, leaves the selection unchanged, and fetches no page at all. -/
theorem claim_C5 (fetch : Nat → FetchOutcome) (fuel : Nat)
    (inputValue : String) (prevSelected : List Artwork)
    (hbad : ∀ n : Int, parseIntBase10 inputValue = some n → n ≤ 0) :
    handleSubmit fetch fuel inputValue prevSelected =
      some ⟨true, prevSelected, []⟩ := by
  unfold handleSubmit
  cases hp : parseIntBase10 inputValue with
  | none => rfl
  | some n =>
    have hle := hbad n hp
    simp [hle]

/-- Claim C5 witness: input `"-3"` parses to `-3 ≤ 0`, so the submit reports
a validation failure, keeps the previous selection and issues no fetch. -/
theorem claim_C5_witness :
    handleSubmit fetchErr 1 "-3" [mkArt 1] = some ⟨true, [mkArt 1], []⟩ := by
  refine claim_C5 fetchErr 1 "-3" [mkArt 1] ?_
  intro n h
  rw [show parseIntBase10 "-3" = some (-3) from by decide] at h
  cases h
  decide

/-- Claim C8: when the paginated-view fetch fails, the failure is recovered
locally: the error is logged, the loading flag ends cleared, and the
displayed rows, total record count and current page are unchanged. -/
theorem claim_C8 (fetch : Nat → FetchOutcome) (page : Nat) (s : ComponentState)
    (herr : fetch page = .err) :
    (fetchArtworks fetch page s).state.artworks = s.artworks ∧
    (fetchArtworks fetch page s).state.totalRecords = s.totalRecords ∧
    (fetchArtworks fetch page s).state.currentPage = s.currentPage ∧
    (fetchArtworks fetch page s).state.loading = false ∧
    (fetchArtworks fetch page s).errorLogged = true := by
  unfold fetchArtworks
  rw [herr]
  exact ⟨rfl, rfl, rfl, rfl, rfl⟩

/-- Claim C8 witness: a failing fetch on a concrete loading state leaves
rows, total and page untouched, clears loading and logs the error. -/
theorem claim_C8_witness :
    (fetchArtworks fetchErr 2 ⟨[mkArt 1], 9, 1, true⟩).state.artworks = [mkArt 1] ∧
    (fetchArtworks fetchErr 2 ⟨[mkArt 1], 9, 1, true⟩).state.totalRecords = 9 ∧
    (fetchArtworks fetchErr 2 ⟨[mkArt 1], 9, 1, true⟩).state.currentPage = 1 ∧
    (fetchArtworks fetchErr 2 ⟨[mkArt 1], 9, 1, true⟩).state.loading = false ∧
    (fetchArtworks fetchErr 2 ⟨[mkArt 1], 9, 1, true⟩).errorLogged = true :=
  claim_C8 fetchErr 2 ⟨[mkArt 1], 9, 1, true⟩ rfl

/-- Claim C9: a zero-based page-change notification with index `p` makes the
driver request the one-based page `p + 1`, and a notification with no page
index is treated as index 0 and requests page 1. -/
theorem claim_C9 (fetch : Nat → FetchOutcome) (s : ComponentState) :
    (∀ p : Nat, (onPageChange fetch (some p) s).requestedPage = p + 1) ∧
    (onPageChange fetch none s).requestedPage = 1 :=
  ⟨fun p => fetchArtworks_requestedPage fetch (p + 1) s,
   fetchArtworks_requestedPage fetch 1 s⟩

/-- Claim C10: for any validly parsed positive target, the outcome of
`handleSubmit` is independent of the previously selected records — the new
selection wholly replaces the old one, with no merging. -/
theorem claim_C10 (fetch : Nat → FetchOutcome) (fuel : Nat)
    (inputValue : String) (prev prevOther : List Artwork)
    (hvalid : ∃ n : Int, parseIntBase10 inputValue = some n ∧ 0 < n) :
    handleSubmit fetch fuel inputValue prev =
      handleSubmit fetch fuel inputValue prevOther := by
  obtain ⟨n, hp, hpos⟩ := hvalid
  unfold handleSubmit
  rw [hp]
  have hgt : ¬ n ≤ 0 := by omega
  simp [hgt]

/-- Claim C10 witness: with target `"2"`, the submit outcome starting from a
nonempty prior selection equals the one starting from an empty selection. -/
theorem claim_C10_witness :
    handleSubmit fetchErr 1 "2" [mkArt 1] = handleSubmit fetchErr 1 "2" [] :=
  claim_C10 fetchErr 1 "2" [mkArt 1] [] ⟨2, by decide, by decide⟩

/-- Claim C6: for every positive target and every fetcher whose pagination
metadata reports the requested page as `current_page` and a finite
`total_pages` bounded by `T`, the selection walk terminates — fuel `T + 1`
is enough for the walk from page 1 to return a result. -/
theorem claim_C6 (fetch : Nat → FetchOutcome) (T target : Nat)
    (_htarget : 0 < target)
    (hpag : ∀ p resp pg, fetch p = .ok resp → resp.pagination = some pg →
      pg.current_page = (p : Int) ∧ pg.total_pages ≤ (T : Int)) :
    (selectWalk fetch target (T + 1) [] 1).isSome = true :=
  selectWalk_terminates fetch target T hpag (T + 1) 1 [] (by omega) (by omega)

/-- Claim C6 witness: a fetcher reporting one total page terminates within
fuel 2 for target 1. -/
theorem claim_C6_witness : (selectWalk fetchT1 1 2 [] 1).isSome = true :=
  claim_C6 fetchT1 1 1 (by decide)
    (by
      intro p resp pg h1 h2
      have h1' : FetchOutcome.ok
          ⟨some [], some ⟨(p : Int), 1, 0⟩⟩ = .ok resp := h1
      obtain rfl := FetchOutcome.ok.inj h1'
      obtain rfl := Option.some.inj h2
      refine ⟨rfl, ?_⟩
      show (1 : Int) ≤ ((1 : Nat) : Int)
      omega)

/-- Claim C1 counterexample: with target 2, pages `1 → [id 1]`,
`2 → [id 1]`, `3 → [id 2]` and honest pagination over 3 pages, the source
has 2 distinct ids reachable by sequential paging, yet the walk returns only
1 record: page 2's raw count met the remaining need, so the walk stopped
after it even though the accumulator was still short. -/
theorem claim_C1_counterexample :
    ((selectWalk fetchC1 2 10 [] 1).map fun r => r.1.length) = some 1 ∧
    2 ≤ ((pagesUpTo pagesC1 3).map Artwork.id).dedup.length := by
  constructor <;> decide

/-- Claim C3, amended: provided each individual fetched page contains no
duplicate ids, the accumulated selection never contains two records with the
same id, even when the same record appears on more than one fetched page
(cross-page duplicates are filtered out; first occurrence wins). -/
theorem claim_C3_amended (fetch : Nat → FetchOutcome) (target fuel : Nat)
    (sel : List Artwork) (tr : List Nat)
    (hpages : ∀ p resp items, fetch p = .ok resp → resp.data = some items →
      (items.map Artwork.id).Nodup)
    (h : selectWalk fetch target fuel [] 1 = some (sel, tr)) :
    (sel.map Artwork.id).Nodup :=
  selectWalk_nodup fetch target hpages fuel [] 1 sel tr (by simp) h

/-- Claim C3 witness: the fetcher whose pages 1 and 2 both carry the record
with id 1 (each page id-unique within itself) yields a selection whose ids
are unique — the overlapping record was kept only once. -/
theorem claim_C3_witness : (([mkArt 1]).map Artwork.id).Nodup :=
  claim_C3_amended fetchC1 2 10 [mkArt 1] [1, 2]
    (by
      intro p resp items h1 h2
      have h1' : FetchOutcome.ok
          ⟨some (pagesC1 p), some ⟨(p : Int), 3, 3⟩⟩ = .ok resp := h1
      obtain rfl := FetchOutcome.ok.inj h1'
      obtain rfl := Option.some.inj h2
      rcases p with _ | _ | _ | _ | p
      · decide
      · decide
      · decide
      · decide
      · simp [show pagesC1 (p + 4) = [] from rfl])
    (by decide)

/-- Claim C7: the pages fetched by a completed `handleSubmit` run form the
strictly ascending gap-free sequence `1, 2, 3, …`; the walk always starts at
page 1 (its trace never depends on the page the UI displays), and the trace
order is request order because each fetch is awaited before the next. -/
theorem claim_C7 (fetch : Nat → FetchOutcome) (fuel : Nat)
    (inputValue : String) (prevSelected : List Artwork) (out : SubmitOutcome)
    (h : handleSubmit fetch fuel inputValue prevSelected = some out) :
    out.pagesFetched = pageSeq 1 out.pagesFetched.length := by
  unfold handleSubmit at h
  cases hp : parseIntBase10 inputValue with
  | none =>
    rw [hp] at h
    obtain rfl := Option.some.inj h
    rfl
  | some n =>
    rw [hp] at h
    by_cases hle : n ≤ 0
    · have h' : some (⟨true, prevSelected, []⟩ : SubmitOutcome) = some out := by
        rw [← h]
        simp [hle]
      obtain rfl := Option.some.inj h'
      rfl
    · have h2 : (if n ≤ 0 then some (⟨true, prevSelected, []⟩ : SubmitOutcome)
          else match selectWalk fetch n.toNat fuel [] 1 with
            | none => none
            | some (sel, tr) => some ⟨false, sel, tr⟩) = some out := h
      rw [if_neg hle] at h2
      rcases hw : selectWalk fetch n.toNat fuel [] 1 with _ | ⟨sel, tr⟩
      · rw [hw] at h2
        exact absurd h2 (by simp)
      · rw [hw] at h2
        obtain rfl := Option.some.inj h2
        exact selectWalk_trace fetch n.toNat fuel [] 1 sel tr hw

/-- Claim C7 witness: submitting `"3"` against the two-page source fetches
exactly pages `[1, 2]`, the ascending gap-free sequence from 1. -/
theorem claim_C7_witness : ([1, 2] : List Nat) = pageSeq 1 2 :=
  claim_C7 fetchW 2 "3" [] ⟨false, [mkArt 1, mkArt 2, mkArt 3], [1, 2]⟩
    (by decide)

/-- Claim C1, amended: for every positive target, if the fetcher serves
pages `1…T` with pagination reporting the requested page and `T` total
pages, the records across pages `1…T` have pairwise-distinct ids, and at
least `target` records are reachable, then the walk returns exactly
`target` records — the first `target` of the page stream in first-seen
order (all of page 1 in page order, then page 2, and so on), each id
unique. -/
theorem claim_C1_amended (fetch : Nat → FetchOutcome)
    (pages : Nat → List Artwork) (T : Nat) (tot : Int) (target fuel : Nat)
    (htarget : 0 < target)
    (hfetch : ∀ p, 1 ≤ p → p ≤ T →
      fetch p = .ok ⟨some (pages p), some ⟨(p : Int), (T : Int), tot⟩⟩)
    (hnodup : ((pagesUpTo pages T).map Artwork.id).Nodup)
    (hcount : target ≤ (pagesUpTo pages T).length)
    (hfuel : T ≤ fuel) :
    ((selectWalk fetch target fuel [] 1).map fun r => r.1) =
        some ((pagesUpTo pages T).take target) ∧
      ((pagesUpTo pages T).take target).length = target ∧
      (((pagesUpTo pages T).take target).map Artwork.id).Nodup := by
  have hT : 1 ≤ T := by
    rcases Nat.eq_zero_or_pos T with rfl | h
    · exfalso
      have h0 : (pagesUpTo pages 0).length = 0 := rfl
      omega
    · exact h
  obtain ⟨tr, htr⟩ := selectWalk_complete fetch pages T tot target hfetch
    hnodup hcount fuel 0 (by omega) (by omega)
    (by
      have h0 : (pagesUpTo pages 0).length = 0 := rfl
      omega)
  have htr' : selectWalk fetch target fuel [] 1 =
      some ((pagesUpTo pages T).take target, tr) := htr
  refine ⟨by rw [htr']; rfl, ?_, ?_⟩
  · rw [List.length_take]
    omega
  · exact (((List.take_sublist target _).map Artwork.id)).nodup hnodup

/-- Claim C1 amended witness: two pages of two records each with globally
distinct ids and target 3 — the walk returns all of page 1 in order, then
the first record of page 2. -/
theorem claim_C1_witness :
    ((selectWalk fetchW 3 2 [] 1).map fun r => r.1) =
        some ((pagesUpTo pagesW 2).take 3) ∧
      ((pagesUpTo pagesW 2).take 3).length = 3 ∧
      (((pagesUpTo pagesW 2).take 3).map Artwork.id).Nodup :=
  claim_C1_amended fetchW pagesW 2 4 3 2 (by decide)
    (fun p _ _ => rfl) (by decide) (by decide) (by decide)

/-- Claim C3 counterexample: a single fetched page carrying two distinct
records that share id 1 makes the walk return both — the accumulator holds
two records with the same id, because the source deduplicates a page only
against the accumulator, never within the page itself. -/
theorem claim_C3_counterexample :
    selectWalk fetchDup 2 2 [] 1 = some ([mkArt 1, mkArtB 1], [1]) ∧
    ¬ (([mkArt 1, mkArtB 1]).map Artwork.id).Nodup := by
  constructor <;> decide

end DataTableSpec
